import Mathlib

/-!
Verification of weightedDict.py (google/weighted-dict): a red-black tree
with summaries at each node, in which only the leaves carry key/value
pairs (class WeightedDict).

Shallow embedding conventions:
* Keys are modelled as Int.  Python key truthiness matters to the code
  (it tests min_key with plain `if not self.min_key`), and for Int keys
  the falsy key is 0, standing in for all falsy Python keys (0, "", ...).
* Weights (Python floats) are modelled as ℚ, i.e. exact arithmetic.
* Python ints (the length field) are modelled as Int, since the code can
  decrement length below zero.
* A tree object is a WTree: leaf covers every node whose lt is None
  (the code always sets lt and rt together), node covers internal nodes.
* The mutable parent pointers (self.up) are represented by an explicit
  path context (zipper): a Frame records, for one ancestor on the path
  from the focused subtree to the root, on which side the focus hangs,
  the ancestor's own fields, and the sibling subtree.  Upward-walking
  methods (rb_balance, set_vals, set_mins, rb_unsplit_fix,
  rb_solve_double_black) become functions on focus-plus-context.
-/

namespace WD

inductive WTree : Type where
  | leaf (min_key : Option Int) (val : ℚ) (black : Bool) (length : Int)
  | node (min_key : Option Int) (val : ℚ) (black : Bool) (length : Int) (lt rt : WTree)
deriving DecidableEq, Repr

/-- Attribute self.min_key. -/
def WTree.min_key : WTree → Option Int
  | .leaf mk _ _ _ => mk
  | .node mk _ _ _ _ _ => mk

/-- Attribute self.val. -/
def WTree.val : WTree → ℚ
  | .leaf _ v _ _ => v
  | .node _ v _ _ _ _ => v

/-- Attribute self.black. -/
def WTree.black : WTree → Bool
  | .leaf _ _ b _ => b
  | .node _ _ b _ _ _ => b

/-- Attribute self.length (len(self)). -/
def WTree.length : WTree → Int
  | .leaf _ _ _ n => n
  | .node _ _ _ n _ _ => n

/-- Python truthiness of the min_key attribute (None and the key 0 are falsy):
the test `if not self.min_key` in the source. -/
def pyTruthy : Option Int → Bool
  | none => false
  | some m => m != 0

/-- The comparison `self.rt.min_key <= key` of the source.  A None min_key
would raise TypeError in Python 3; that situation is not reachable through
the public operations, and the model returns false there. -/
def leKey : Option Int → Int → Bool
  | some m, k => decide (m ≤ k)
  | none, _ => false

/-- WeightedDict(): min_key=None, val=0., no children, no parent, length 0,
red. -/
def emptyWD : WTree := .leaf none 0 false 0

/-- Overwrite the black flag of a node (the assignments like
self.up.black = True in the source). -/
def setBlack : WTree → Bool → WTree
  | .leaf mk v _ n, b => .leaf mk v b n
  | .node mk v _ n l r, b => .node mk v b n l r

/-- Which side of its parent a focused subtree hangs on (the identity tests
self.up.lt == self / self.up.rt == self of the source). -/
inductive Dir : Type where
  | left
  | right
deriving DecidableEq, Repr

/-- One ancestor on the path from a focused subtree to the root: the
ancestor's own fields plus the sibling subtree (self.brother() in the
source).  A list of frames, innermost first, stands for the chain of
self.up pointers. -/
structure Frame where
  dir : Dir
  min_key : Option Int
  val : ℚ
  black : Bool
  length : Int
  sib : WTree
deriving DecidableEq, Repr

/-- Rebuild the parent node from a focused child and its frame. -/
def plug1 (t : WTree) (f : Frame) : WTree :=
  match f.dir with
  | .left => .node f.min_key f.val f.black f.length t f.sib
  | .right => .node f.min_key f.val f.black f.length f.sib t

/-- Rebuild the whole tree from a focused subtree and its path context. -/
def plug : WTree → List Frame → WTree
  | t, [] => t
  | t, f :: ctx => plug (plug1 t f) ctx

/-- Method __contains__: see if we are at the bottom, else look right
when self.rt.min_key <= key. -/
def contains : WTree → Int → Bool
  | .leaf mk _ _ _, k => mk == some k
  | .node _ _ _ _ l r, k => if leKey r.min_key k then contains r k else contains l k

/-- Method __getitem__ (assumes key in tree; no guard in the source:
at the bottom it returns that leaf's val whatever the key is). -/
def getitem : WTree → Int → ℚ
  | .leaf _ v _ _, _ => v
  | .node _ _ _ _ l r, k => if leKey r.min_key k then getitem r k else getitem l k

/-- Method keys(): at the bottom, [self.min_key] if self.min_key else [] —
note the Python truthiness test, which also drops the key 0. -/
def keys : WTree → List Int
  | .leaf (some m) _ _ _ => if m ≠ 0 then [m] else []
  | .leaf none _ _ _ => []
  | .node _ _ _ _ l r => keys l ++ keys r

/-- Method __iter__, materialized as the list of yielded keys: at the
bottom, yield self.min_key only if it is truthy; else chain(lt, rt). -/
def iterKeys : WTree → List Int
  | .leaf (some m) _ _ _ => if m ≠ 0 then [m] else []
  | .leaf none _ _ _ => []
  | .node _ _ _ _ l r => iterKeys l ++ iterKeys r

/-- Method update_val (assumes key is already in the dict): descend to the
owning leaf by the `self.rt.min_key <= key` test, overwrite its val; the
subsequent set_vals walk, which refixes every ancestor's val to
lt.val + rt.val, is realized by the recomputation on the way back up. -/
def update_val : WTree → Int → ℚ → WTree
  | .leaf mk _ b n, _, w => .leaf mk w b n
  | .node mk _ b n l r, k, w =>
    if leKey r.min_key k then
      .node mk (l.val + (update_val r k w).val) b n l (update_val r k w)
    else
      .node mk ((update_val l k w).val + r.val) b n (update_val l k w) r

/-- Perform rshift: self with shape (X(A,B), C) becomes (A, X(B,C)); X's
summaries are recomputed from its new children, the top node's fields are
untouched.  On any other shape Python would raise; that fallback is not
reachable through the public operations. -/
def rshift : WTree → WTree
  | .node mk v b n (.node _ _ xb _ a bb) c =>
    .node mk v b n a (.node bb.min_key (bb.val + c.val) xb (bb.length + c.length) bb c)
  | t => t

/-- Perform lshift: self with shape (A, X(B,C)) becomes (X(A,B), C). -/
def lshift : WTree → WTree
  | .node mk v b n a (.node _ _ xb _ bb c) =>
    .node mk v b n (.node a.min_key (a.val + bb.val) xb (a.length + bb.length) a bb) c
  | t => t

/-- Method rb_balance, the insertion fixup, on a focused node and its path
context.  Cases as in the source: parent missing or black: nothing;
parent is the root: blacken it; uncle red: push the black grandparent
down and recurse from the grandparent; uncle black and brother red:
recolor, rotate the grandparent, recurse from it; uncle black and brother
black: one or two rotations, done. -/
def rb_balance : WTree → List Frame → WTree
  | t, [] => t
  | t, f :: ctx =>
    if f.black then plug t (f :: ctx)
    else
      match ctx with
      | [] => plug t [{ f with black := true }]
      | g :: rest =>
        if !g.sib.black then
          let p := plug1 t { f with black := true }
          let gp :=
            match g.dir with
            | .left => WTree.node g.min_key g.val false g.length p (setBlack g.sib true)
            | .right => WTree.node g.min_key g.val false g.length (setBlack g.sib true) p
          rb_balance gp rest
        else if !f.sib.black then
          match g.dir with
          | .left =>
            let p :=
              match f.dir with
              | .left => WTree.node f.min_key f.val true f.length (setBlack t true) f.sib
              | .right => WTree.node f.min_key f.val true f.length (setBlack f.sib true) t
            rb_balance
              (setBlack (rshift (WTree.node g.min_key g.val g.black g.length p g.sib)) false) rest
          | .right =>
            let p :=
              match f.dir with
              | .left => WTree.node f.min_key f.val true f.length t (setBlack f.sib true)
              | .right => WTree.node f.min_key f.val true f.length f.sib (setBlack t true)
            rb_balance
              (setBlack (lshift (WTree.node g.min_key g.val g.black g.length g.sib p)) false) rest
        else
          let p := plug1 t f
          match f.dir, g.dir with
          | .left, .left => plug (rshift (plug1 p g)) rest
          | .right, .right => plug (lshift (plug1 p g)) rest
          | .right, .left => plug (rshift (plug1 (lshift p) g)) rest
          | .left, .right => plug (lshift (plug1 (rshift p) g)) rest

/-- Method split on a leaf holding (m, v0) whose length has already been
incremented to n: order the old pair and the new pair (Python sorts the
two (key, val) tuples lexicographically), turn the leaf into an internal
node with two fresh red leaves of length 1, then run rb_balance on the
left leaf. -/
def split (m : Int) (v0 : ℚ) (b : Bool) (n : Int) (k : Int) (v : ℚ) (ctx : List Frame) : WTree :=
  let swap := decide (k < m ∨ (k = m ∧ v < v0))
  let lk := if swap then k else m
  let lv := if swap then v else v0
  let rk := if swap then m else k
  let rv := if swap then v0 else v
  rb_balance (.leaf (some lk) lv false 1)
    ({ dir := .left, min_key := some lk, val := lv + rv, black := b, length := n,
       sib := .leaf (some rk) rv false 1 } :: ctx)

/-- Method add_element: increment length; if min_key is falsy (the
"are we the top" test, which also fires on the key 0) overwrite min_key
and val in place; at the bottom, split; else add val to the summary,
lower min_key when inserting a new minimum, and descend by the
`self.rt.min_key <= key` test. -/
def add_element : WTree → Int → ℚ → List Frame → WTree
  | .leaf mk v0 b n, k, v, ctx =>
    match mk with
    | none => plug (.leaf (some k) v b (n + 1)) ctx
    | some m =>
      if m = 0 then plug (.leaf (some k) v b (n + 1)) ctx
      else split m v0 b (n + 1) k v ctx
  | .node mk v0 b n l r, k, v, ctx =>
    match mk with
    | none => plug (.node (some k) v b (n + 1) l r) ctx
    | some m =>
      if m = 0 then plug (.node (some k) v b (n + 1) l r) ctx
      else if leKey r.min_key k then
        add_element r k v
          ({ dir := .right, min_key := some m, val := v0 + v, black := b, length := n + 1,
             sib := l } :: ctx)
      else
        add_element l k v
          ({ dir := .left, min_key := if k < m then some k else some m, val := v0 + v,
             black := b, length := n + 1, sib := r } :: ctx)

/-- Method __setitem__: update_val when the key is already present, else
add_element (float(val) is the identity on our exact weights). -/
def setitem (t : WTree) (k : Int) (v : ℚ) : WTree :=
  if contains t k then update_val t k v else add_element t k v []

/-- Method set_mins, propagating from the parent of the focus to the root:
each ancestor's val becomes lt.val + rt.val and its min_key becomes
lt.min_key (length and color untouched). -/
def set_mins : WTree → List Frame → List Frame
  | _, [] => []
  | t, f :: ctx =>
    let f2 :=
      match f.dir with
      | .left => { f with min_key := t.min_key, val := t.val + f.sib.val }
      | .right => { f with min_key := f.sib.min_key, val := f.sib.val + t.val }
    f2 :: set_mins (plug1 t f2) ctx

/-- Method unsplit's structural part: self adopts the surviving child W's
min_key, val and children while keeping its own black flag and its (already
decremented) length. -/
def unsplit (w : WTree) (b : Bool) (n : Int) : WTree :=
  match w with
  | .leaf wmk wv _ _ => .leaf wmk wv b n
  | .node wmk wv _ _ wl wr => .node wmk wv b n wl wr

/-- Fuel bound for rb_solve_double_black.  The Python recursion terminates
because on a red-black-valid tree each case either stops, moves the
deficiency one level up, or rotates at most twice before stopping; its
depth is bounded by a small multiple of the height.  The model makes that
semantic termination explicit with fuel that dominates the bound. -/
def dbFuel (ctx : List Frame) : Nat := 3 * ctx.length + 6

/-- Method rb_solve_double_black on a focused double-black node and its
path context.  Cases as in the source: red: blacken, done; root: done;
brother red: rotate the parent toward the focus and recurse in place;
brother black with two black children: redden the brother and recurse
from the parent; else by side, a red far nephew is blackened and the
parent rotated once (done), otherwise the brother is rotated and the same
node retried.  Where the source would dereference a missing child of a
leaf brother (an AttributeError in Python, unreachable through the public
operations on red-black-valid trees) the model leaves the tree as is. -/
def rb_solve_double_black : Nat → WTree → List Frame → WTree
  | 0, t, ctx => plug t ctx
  | fuel + 1, t, ctx =>
    if !t.black then plug (setBlack t true) ctx
    else
      match ctx with
      | [] => t
      | f :: rest =>
        if !f.sib.black then
          match f.dir, f.sib with
          | .left, .node _ _ sb _ sl sr =>
            rb_solve_double_black fuel t
              ({ dir := .left, min_key := t.min_key, val := t.val + sl.val, black := sb,
                 length := t.length + sl.length, sib := sl } ::
               { f with sib := sr } :: rest)
          | .right, .node _ _ sb _ sl sr =>
            rb_solve_double_black fuel t
              ({ dir := .right, min_key := sr.min_key, val := sr.val + t.val, black := sb,
                 length := sr.length + t.length, sib := sr } ::
               { f with sib := sl } :: rest)
          | _, _ => plug t ctx
        else
          match f.sib with
          | .node smk sv sb sn sl sr =>
            if sl.black && sr.black then
              rb_solve_double_black fuel
                (plug1 t { f with sib := WTree.node smk sv false sn sl sr }) rest
            else
              match f.dir with
              | .left =>
                if !sr.black then
                  plug (lshift (WTree.node f.min_key f.val f.black f.length t
                    (WTree.node smk sv sb sn sl (setBlack sr true)))) rest
                else
                  rb_solve_double_black fuel t
                    ({ f with sib := rshift (WTree.node smk sv sb sn sl sr) } :: rest)
              | .right =>
                if !sl.black then
                  plug (rshift (WTree.node f.min_key f.val f.black f.length
                    (WTree.node smk sv sb sn (setBlack sl true) sr) t)) rest
                else
                  rb_solve_double_black fuel t
                    ({ f with sib := lshift (WTree.node smk sv sb sn sl sr) } :: rest)
          | .leaf _ _ _ _ => plug t ctx

/-- Method rb_unsplit_fix(nuked_black): at the root, blacken; if the nuked
node was red, nothing; if self is red, blacken; else resolve the double
black. -/
def rb_unsplit_fix (t : WTree) (ctx : List Frame) (nuked_black : Bool) : WTree :=
  match ctx with
  | [] => setBlack t true
  | _ :: _ =>
    if !nuked_black then plug t ctx
    else if !t.black then plug (setBlack t true) ctx
    else rb_solve_double_black (dbFuel ctx) t ctx

/-- Method del_element on an internal node: decrement length, descend by
the `self.rt.min_key <= key` test; when the chosen child is a leaf it
reports deletion, and self unsplits onto the surviving sibling, refixes
the ancestors' summaries (set_mins) and runs rb_unsplit_fix with the
survivor's color.  The childless case only arises for the root and is
handled by remove. -/
def del_element : WTree → Int → List Frame → WTree
  | .leaf mk v b n, _, ctx => plug (.leaf mk v b (n - 1)) ctx
  | .node mk v b n l r, k, ctx =>
    if leKey r.min_key k then
      match r with
      | .leaf _ _ _ _ =>
        let u := unsplit l b (n - 1)
        rb_unsplit_fix u (set_mins u ctx) l.black
      | .node _ _ _ _ _ _ =>
        del_element r k
          ({ dir := .right, min_key := mk, val := v, black := b, length := n - 1,
             sib := l } :: ctx)
    else
      match l with
      | .leaf _ _ _ _ =>
        let u := unsplit r b (n - 1)
        rb_unsplit_fix u (set_mins u ctx) r.black
      | .node _ _ _ _ _ _ =>
        del_element l k
          ({ dir := .left, min_key := mk, val := v, black := b, length := n - 1,
             sib := r } :: ctx)

/-- Method remove: del_element from the root; when the root itself is
childless, del_element just decrements the length and reports True, and
remove resets min_key to None and val to 0. -/
def remove : WTree → Int → WTree
  | .leaf _ _ b n, _ => .leaf none 0 b (n - 1)
  | .node mk v b n l r, k => del_element (.node mk v b n l r) k []

/-- Method pop: look the value up, then remove. -/
def pop (t : WTree) (k : Int) : ℚ × WTree := (getitem t k, remove t k)

/-- Outcome of sample(): the key returned (None on the never-populated
tree), or the ZeroDivisionError Python raises when self.val == 0 at an
internal node. -/
inductive SampleResult : Type where
  | ok (k : Option Int)
  | zeroDiv
deriving DecidableEq, Repr

/-- Method sample, with the stream of random.random() draws made explicit
(one draw consumed per internal node): at the bottom return min_key; else
descend left exactly when the draw is below lt.val / self.val. -/
def sample : WTree → (Nat → ℚ) → Nat → SampleResult
  | .leaf mk _ _ _, _, _ => .ok mk
  | .node _ v _ _ l r, rs, i =>
    if v = 0 then .zeroDiv
    else if rs i < l.val / v then sample l rs (i + 1) else sample r rs (i + 1)

/-- Distribution of the key returned by sample when every draw is uniform
on [0,1): at an internal node the draw goes below lt.val / val with
probability lt.val / val, so the chance of reaching a given leaf is the
product of the branch ratios along its path; probOf t k sums that chance
over the leaves carrying k. -/
def probOf : WTree → Int → ℚ
  | .leaf mk _ _ _, k => if mk = some k then 1 else 0
  | .node _ v _ _ l r, k => (l.val / v) * probOf l k + (1 - l.val / v) * probOf r k

/-- Sum of the weights stored at leaves whose key is k. -/
def weightSum : WTree → Int → ℚ
  | .leaf mk v _ _, k => if mk = some k then v else 0
  | .node _ _ _ _ l r, k => weightSum l k + weightSum r k

/-- Every key actually stored at a leaf, truthy or not (unlike keys()). -/
def keysFull : WTree → List Int
  | .leaf (some m) _ _ _ => [m]
  | .leaf none _ _ _ => []
  | .node _ _ _ _ l r => keysFull l ++ keysFull r

/-- The summary invariant of checkTree plus the count component of the
spec: every internal node has min_key == lt.min_key,
val == lt.val + rt.val and length == lt.length + rt.length. -/
def summaryOk : WTree → Bool
  | .leaf _ _ _ _ => true
  | .node mk v _ n l r =>
    decide (mk = l.min_key) && decide (v = l.val + r.val) &&
    decide (n = l.length + r.length) && summaryOk l && summaryOk r

/-- All leaf weights are nonnegative. -/
def nonnegVals : WTree → Bool
  | .leaf _ v _ _ => decide (0 ≤ v)
  | .node _ _ _ _ l r => nonnegVals l && nonnegVals r

/-- The search-tree property the routing tests rely on: at every internal
node, no key of the left subtree passes the `rt.min_key <= key` test and
every key of the right subtree does. -/
def routeOk : WTree → Bool
  | .leaf _ _ _ _ => true
  | .node _ _ _ _ l r =>
    routeOk l && routeOk r &&
    (keysFull l).all (fun a => !leKey r.min_key a) &&
    (keysFull r).all (fun a => leKey r.min_key a)

/-- Erase every val field: what remains is the shape, the colors, the keys
and min_key summaries, and the lengths. -/
def skeleton : WTree → WTree
  | .leaf mk _ b n => .leaf mk 0 b n
  | .node mk _ b n l r => .node mk 0 b n (skeleton l) (skeleton r)

/-- Number of black internal nodes on every root-to-leaf path, when that
number is the same for all such paths, and none when two paths disagree.
This is the black-height notion that counts black internal nodes only. -/
def blackInternalBH : WTree → Option Nat
  | .leaf _ _ _ _ => some 0
  | .node _ _ b _ l r =>
    match blackInternalBH l, blackInternalBH r with
    | some a, some c => if a = c then some (a + (if b then 1 else 0)) else none
    | _, _ => none

/-- A well-formed two-element tree, as built by set 1 1 then set 2 2 (with
the weight of key 1 updated to 1): leaves (1, 1) and (2, 2) under a black
root carrying min_key 1 and val 3. -/
def twoLeafTree : WTree :=
  .node (some 1) 3 true 2 (.leaf (some 1) 1 false 1) (.leaf (some 2) 2 false 1)

end WD

namespace WD

/-! Helper lemmas about the invariant checkers and the update path. -/

theorem summaryOk_node_iff {mk : Option Int} {v : ℚ} {b : Bool} {n : Int} {l r : WTree} :
    summaryOk (.node mk v b n l r) = true ↔
      mk = l.min_key ∧ v = l.val + r.val ∧ n = l.length + r.length ∧
      summaryOk l = true ∧ summaryOk r = true := by
  simp [summaryOk, Bool.and_eq_true, and_assoc]

theorem nonnegVals_node_iff {mk : Option Int} {v : ℚ} {b : Bool} {n : Int} {l r : WTree} :
    nonnegVals (.node mk v b n l r) = true ↔
      nonnegVals l = true ∧ nonnegVals r = true := by
  simp [nonnegVals, Bool.and_eq_true]

theorem routeOk_node_iff {mk : Option Int} {v : ℚ} {b : Bool} {n : Int} {l r : WTree} :
    routeOk (.node mk v b n l r) = true ↔
      routeOk l = true ∧ routeOk r = true ∧
      (∀ a ∈ keysFull l, ¬ leKey r.min_key a = true) ∧
      (∀ a ∈ keysFull r, leKey r.min_key a = true) := by
  simp [routeOk, Bool.and_eq_true, and_assoc, List.all_eq_true]

theorem val_nonneg : ∀ t : WTree, summaryOk t = true → nonnegVals t = true → 0 ≤ t.val
  | .leaf mk v b n, _, hn => by simpa [nonnegVals, WTree.val] using hn
  | .node mk v b n l r, hs, hn => by
    obtain ⟨_, hv, _, hsl, hsr⟩ := summaryOk_node_iff.mp hs
    obtain ⟨hnl, hnr⟩ := nonnegVals_node_iff.mp hn
    have h1 := val_nonneg l hsl hnl
    have h2 := val_nonneg r hsr hnr
    show 0 ≤ v
    rw [hv]
    exact add_nonneg h1 h2

theorem val_mul_probOf : ∀ (t : WTree) (k : Int), summaryOk t = true → nonnegVals t = true →
    t.val * probOf t k = weightSum t k
  | .leaf mk v b n, k, _, _ => by
    by_cases h : mk = some k <;> simp [probOf, weightSum, WTree.val, h]
  | .node mk v b n l r, k, hs, hn => by
    obtain ⟨_, hv, _, hsl, hsr⟩ := summaryOk_node_iff.mp hs
    obtain ⟨hnl, hnr⟩ := nonnegVals_node_iff.mp hn
    have hl := val_mul_probOf l k hsl hnl
    have hr := val_mul_probOf r k hsr hnr
    show v * ((l.val / v) * probOf l k + (1 - l.val / v) * probOf r k) =
      weightSum l k + weightSum r k
    by_cases hv0 : v = 0
    · have hsum : l.val + r.val = 0 := by rw [← hv, hv0]
      have h0l : 0 ≤ l.val := val_nonneg l hsl hnl
      have h0r : 0 ≤ r.val := val_nonneg r hsr hnr
      have hl0 : l.val = 0 := by linarith
      have hr0 : r.val = 0 := by linarith
      have wl0 : weightSum l k = 0 := by rw [← hl, hl0, zero_mul]
      have wr0 : weightSum r k = 0 := by rw [← hr, hr0, zero_mul]
      rw [hv0, zero_mul, wl0, wr0, add_zero]
    · have e1 : 1 - l.val / v = r.val / v := by
        field_simp
        linarith
      have c1 : v * (l.val / v) = l.val := by field_simp
      have c2 : v * (r.val / v) = r.val := by field_simp
      rw [e1, mul_add, ← mul_assoc, ← mul_assoc, c1, c2, hl, hr]

theorem probOf_eq_div (t : WTree) (k : Int) (hs : summaryOk t = true)
    (hn : nonnegVals t = true) (hpos : 0 < t.val) :
    probOf t k = weightSum t k / t.val := by
  rw [eq_div_iff (ne_of_gt hpos), mul_comm]
  exact val_mul_probOf t k hs hn

theorem wsum_eq_zero_of_not_mem : ∀ (t : WTree) (k : Int), k ∉ keysFull t → weightSum t k = 0
  | .leaf (some m) v b n, k, h => by
    have hm : ¬ m = k := fun e => h (by simp [keysFull, e])
    simp [weightSum, Option.some.injEq, hm]
  | .leaf none v b n, k, _ => by simp [weightSum]
  | .node mk v b n l r, k, h => by
    rw [keysFull] at h
    simp only [List.mem_append, not_or] at h
    show weightSum l k + weightSum r k = 0
    rw [wsum_eq_zero_of_not_mem l k h.1, wsum_eq_zero_of_not_mem r k h.2, add_zero]

theorem wsum_eq_getitem : ∀ (t : WTree) (k : Int), routeOk t = true → contains t k = true →
    weightSum t k = getitem t k
  | .leaf mk v b n, k, _, hc => by
    have : mk = some k := by simpa [contains] using hc
    simp [weightSum, getitem, this]
  | .node mk v b n l r, k, hro, hc => by
    obtain ⟨hrl, hrr, hL, hR⟩ := routeOk_node_iff.mp hro
    by_cases hb : leKey r.min_key k = true
    · have hcr : contains r k = true := by simpa [contains, hb] using hc
      have hnl : k ∉ keysFull l := fun hmem => (hL k hmem) hb
      show weightSum l k + weightSum r k = getitem (WTree.node mk v b n l r) k
      rw [wsum_eq_zero_of_not_mem l k hnl, zero_add, wsum_eq_getitem r k hrr hcr]
      simp [getitem, hb]
    · have hcl : contains l k = true := by simpa [contains, hb] using hc
      have hnr : k ∉ keysFull r := fun hmem => hb (hR k hmem)
      show weightSum l k + weightSum r k = getitem (WTree.node mk v b n l r) k
      rw [wsum_eq_zero_of_not_mem r k hnr, add_zero, wsum_eq_getitem l k hrl hcl]
      simp [getitem, hb]

theorem update_val_min_key (t : WTree) (k : Int) (w : ℚ) :
    (update_val t k w).min_key = t.min_key := by
  cases t with
  | leaf mk v b n => rfl
  | node mk v b n l r =>
    rw [update_val]
    split <;> rfl

theorem update_val_skeleton : ∀ (t : WTree) (k : Int) (w : ℚ),
    skeleton (update_val t k w) = skeleton t
  | .leaf mk v b n, _, _ => rfl
  | .node mk v b n l r, k, w => by
    by_cases h : leKey r.min_key k = true <;>
      simp [update_val, h, skeleton, update_val_skeleton l k w, update_val_skeleton r k w]

theorem keys_update : ∀ (t : WTree) (k : Int) (w : ℚ), keys (update_val t k w) = keys t
  | .leaf mk v b n, _, _ => by cases mk <;> rfl
  | .node mk v b n l r, k, w => by
    by_cases h : leKey r.min_key k = true <;>
      simp [update_val, h, keys, keys_update l k w, keys_update r k w]

theorem contains_update : ∀ (t : WTree) (j k : Int) (w : ℚ),
    contains (update_val t k w) j = contains t j
  | .leaf mk v b n, _, _, _ => rfl
  | .node mk v b n l r, j, k, w => by
    by_cases h : leKey r.min_key k = true
    · simp [update_val, h, contains, update_val_min_key, contains_update r j k w]
    · simp [update_val, h, contains, contains_update l j k w]

theorem getitem_update : ∀ (t : WTree) (k : Int) (w : ℚ), getitem (update_val t k w) k = w
  | .leaf mk v b n, _, _ => rfl
  | .node mk v b n l r, k, w => by
    by_cases h : leKey r.min_key k = true
    · simp [update_val, h, getitem, update_val_min_key, getitem_update r k w]
    · simp [update_val, h, getitem, getitem_update l k w]

theorem update_val_idem : ∀ (t : WTree) (k : Int) (w : ℚ),
    update_val (update_val t k w) k w = update_val t k w
  | .leaf mk v b n, _, _ => rfl
  | .node mk v b n l r, k, w => by
    by_cases h : leKey r.min_key k = true
    · simp [update_val, h, update_val_min_key, update_val_idem r k w]
    · simp [update_val, h, update_val_idem l k w]

end WD

namespace WD

/-! Claim theorems. -/

/-- C1: refuted by evaluation on reachable containers.  After
set 5 1; set 0 1; set (-3) 1 (non-negative weights, no remove at all) the
summary invariants are broken: the falsy key 0 makes add_element misfire
its are-we-the-top truthiness test and overwrite the internal root's
min_key and val in place, so min_key differs from left.min_key, val from
left.val + right.val and count from left.count + right.count — the
assertions of the code's own checkTree fail on this tree.  Moreover
already after set 1 1; set 2 1; set 3 1 the root is red and two
root-to-leaf paths pass through different numbers of black internal
nodes. -/
theorem c1_invariants_fail_on_reachable_trees :
    summaryOk (setitem (setitem (setitem emptyWD 5 1) 0 1) (-3) 1) = false ∧
    (setitem (setitem (setitem emptyWD 1 1) 2 1) 3 1).black = false ∧
    blackInternalBH (setitem (setitem (setitem emptyWD 1 1) 2 1) 3 1) = none := by decide

/-- C2: refuted by evaluation.  On the fresh container, after set 0 1 the
key 0 is present (contains is true, get returns its weight, the length is
1) while keys() is the empty list: keys() drops any Python-falsy key
because of its `[self.min_key] if self.min_key else []` truthiness test,
so it disagrees with the reference map's sorted key list [0]. -/
theorem c2_keys_misses_falsy_key :
    contains (setitem emptyWD 0 1) 0 = true ∧
    getitem (setitem emptyWD 0 1) 0 = 1 ∧
    (setitem emptyWD 0 1).length = 1 ∧
    keys (setitem emptyWD 0 1) = [] := by decide

/-- C3: on any tree satisfying the summary invariant with non-negative
leaf weights and correct routing, whose total weight is positive, the
probability that the random descent of sample returns a present key k —
each internal node is left with probability lt.val / val, the mass of
draws below that ratio among the uniform draws on [0,1) — is exactly
get(k) / total_weight. -/
theorem c3_sample_distribution (t : WTree) (k : Int)
    (hs : summaryOk t = true) (hn : nonnegVals t = true) (hr : routeOk t = true)
    (hpos : 0 < t.val) (hc : contains t k = true) :
    probOf t k = getitem t k / t.val := by
  rw [probOf_eq_div t k hs hn hpos, wsum_eq_getitem t k hr hc]

theorem twoLeafTree_summaryOk : summaryOk twoLeafTree = true := by
  rw [twoLeafTree, summaryOk_node_iff]
  refine ⟨rfl, by norm_num [WTree.val], by decide, rfl, rfl⟩

/-- Witness for C3 at the concrete two-leaf tree with weights 1 and 2:
the key 2 is sampled with probability 2/3. -/
theorem c3_sample_distribution_witness :
    (summaryOk twoLeafTree = true ∧ nonnegVals twoLeafTree = true ∧
     routeOk twoLeafTree = true ∧ 0 < twoLeafTree.val ∧
     contains twoLeafTree 2 = true) ∧
    probOf twoLeafTree 2 = getitem twoLeafTree 2 / twoLeafTree.val :=
  ⟨⟨twoLeafTree_summaryOk, by decide, by decide, by decide, by decide⟩,
   c3_sample_distribution twoLeafTree 2 twoLeafTree_summaryOk (by decide) (by decide)
     (by decide) (by decide)⟩

/-- C4: refuted by evaluation.  remove on the absent key 3 of the
container {5: 2} does not fail and does not leave the container
unchanged: it deletes the leaf the routing reaches (the key 5). -/
theorem c4_remove_absent_mutates :
    contains (setitem emptyWD 5 2) 3 = false ∧
    remove (setitem emptyWD 5 2) 3 ≠ setitem emptyWD 5 2 := by decide

/-- C4 amended: get, remove and pop on an absent key signal no error at
all.  get returns the weight stored at the leaf the search routing
reaches (2, the weight of key 5, when asking for 3 in {5: 2}; 0 on the
empty container); remove deletes that leaf (removing key 5 when asked to
remove 3) and always decrements the stored length, driving it to -1 on
the empty container; pop returns the routed leaf's weight and performs
the same deletion. -/
theorem c4_absent_key_no_error :
    getitem (setitem emptyWD 5 2) 3 = 2 ∧
    getitem emptyWD 3 = 0 ∧
    keys (remove (setitem emptyWD 5 2) 3) = [] ∧
    (remove emptyWD 3).length = -1 ∧
    (pop (setitem emptyWD 5 2) 3).1 = 2 ∧
    keys (pop (setitem emptyWD 5 2) 3).2 = [] := by decide

/-- C5: refuted by evaluation.  sample() on the freshly constructed
container does not fail: it silently returns None (the unset min_key). -/
theorem c5_sample_empty_silently_returns :
    sample emptyWD (fun _ => 0) 0 = SampleResult.ok none := by decide

/-- C5 amended: sample() on the empty container silently returns None
whatever the draws are; on a multi-element container of total weight zero
it fails with the ZeroDivisionError of lt.val / val, not with a reported
EmptyContainer error; on a single-element container of weight zero it
silently returns that key; a freshly constructed container has
len() == 0. -/
theorem c5_sample_zero_weight_behavior :
    (∀ (rs : Nat → ℚ) (i : Nat), sample emptyWD rs i = SampleResult.ok none) ∧
    (∀ (rs : Nat → ℚ) (i : Nat),
      sample (setitem (setitem emptyWD 5 0) 7 0) rs i = SampleResult.zeroDiv) ∧
    (∀ (rs : Nat → ℚ) (i : Nat),
      sample (setitem emptyWD 5 0) rs i = SampleResult.ok (some 5)) ∧
    emptyWD.length = 0 :=
  ⟨fun _ _ => rfl,
   fun rs i => by
     rw [show setitem (setitem emptyWD 5 0) 7 0 =
         WTree.node (some 5) (0 + 0) true 2
           (.leaf (some 5) 0 false 1) (.leaf (some 7) 0 false 1) from rfl]
     simp [sample],
   fun _ _ => rfl, rfl⟩

/-- C6: refuted by evaluation.  set 5 (-1) on the fresh container is not
rejected: the tree is mutated (length becomes 1) and the negative weight
is stored and returned by get. -/
theorem c6_negative_weight_accepted :
    getitem (setitem emptyWD 5 (-1)) 5 = -1 ∧
    (setitem emptyWD 5 (-1)).length = 1 := by decide

/-- C6 amended: set k w with w < 0 performs the insertion as with any
other weight; no InvalidWeight error exists and the negative weight is
silently stored: afterwards the key is present, get returns w and the
length was incremented. -/
theorem c6_negative_weight_silently_stored (w : ℚ) (_hw : w < 0) :
    contains (setitem emptyWD 5 w) 5 = true ∧
    getitem (setitem emptyWD 5 w) 5 = w ∧
    (setitem emptyWD 5 w).length = 1 :=
  ⟨rfl, rfl, rfl⟩

/-- Witness for C6 amended at w = -1. -/
theorem c6_negative_weight_silently_stored_witness :
    (-1 : ℚ) < 0 ∧
    (contains (setitem emptyWD 5 (-1)) 5 = true ∧
     getitem (setitem emptyWD 5 (-1)) 5 = -1 ∧
     (setitem emptyWD 5 (-1)).length = 1) :=
  ⟨by norm_num, c6_negative_weight_silently_stored (-1) (by norm_num)⟩

/-- C7: set on a present key is an update: it leaves the skeleton of the
tree (shape, colors, keys, min_key summaries and lengths) unchanged, so
in particular shape, node colors and all keys; doing it twice leaves the
tree structurally identical to doing it once; and afterwards get k
returns w.  Only the owning leaf's val and the val summaries of its
ancestors are recomputed, which the skeleton equality expresses by
erasing exactly the val fields. -/
theorem c7_update_preserves_structure (t : WTree) (k : Int) (w : ℚ)
    (_hw : 0 ≤ w) (hmem : contains t k = true) :
    skeleton (setitem t k w) = skeleton t ∧
    keys (setitem t k w) = keys t ∧
    setitem (setitem t k w) k w = setitem t k w ∧
    getitem (setitem t k w) k = w := by
  have h1 : setitem t k w = update_val t k w := by simp [setitem, hmem]
  have hmem2 : contains (update_val t k w) k = true := by
    rw [contains_update]
    exact hmem
  refine ⟨?_, ?_, ?_, ?_⟩
  · rw [h1, update_val_skeleton]
  · rw [h1, keys_update]
  · rw [h1]
    simp [setitem, hmem2, update_val_idem]
  · rw [h1, getitem_update]

/-- Witness for C7 at the two-leaf tree, updating key 2 to weight 5. -/
theorem c7_update_preserves_structure_witness :
    (0 ≤ (5 : ℚ) ∧ contains twoLeafTree 2 = true) ∧
    (skeleton (setitem twoLeafTree 2 5) = skeleton twoLeafTree ∧
     keys (setitem twoLeafTree 2 5) = keys twoLeafTree ∧
     setitem (setitem twoLeafTree 2 5) 2 5 = setitem twoLeafTree 2 5 ∧
     getitem (setitem twoLeafTree 2 5) 2 = 5) :=
  ⟨⟨by norm_num, by decide⟩,
   c7_update_preserves_structure twoLeafTree 2 5 (by norm_num) (by decide)⟩

/-- C8: refuted by evaluation.  The container built by set 5 2; set 0 1
has total weight 3 at the root and does not contain -3; inserting -3 (the
new minimum) makes add_element's falsy-min_key test misfire at the
internal root, overwriting its summary in place, and the subsequent
remove (-3) deletes the leaf with key 0: the key list [5] happens to be
restored (keys() had already hidden the falsy key 0) but the root's total
weight ends at 2 instead of the prior 3. -/
theorem c8_roundtrip_weight_not_restored :
    contains (setitem (setitem emptyWD 5 2) 0 1) (-3) = false ∧
    (setitem (setitem emptyWD 5 2) 0 1).val = 3 ∧
    keys (setitem (setitem emptyWD 5 2) 0 1) = [5] ∧
    keys (remove (setitem (setitem (setitem emptyWD 5 2) 0 1) (-3) 1) (-3)) = [5] ∧
    (remove (setitem (setitem (setitem emptyWD 5 2) 0 1) (-3) 1) (-3)).val = 2 := by
  refine ⟨by decide, ?_, by decide, by decide, by decide⟩
  rw [show (setitem (setitem emptyWD 5 2) 0 1).val = (1 : ℚ) + 2 from rfl]
  norm_num

/-- C9: on a fresh container, set 0 w (the falsy key 0 standing for any
falsy Python key) makes contains 0 true with len() == 1, while keys()
returns the empty list and iteration yields nothing, because both use the
Python truthiness of min_key. -/
theorem c9_falsy_key_stored_but_invisible (w : ℚ) :
    contains (setitem emptyWD 0 w) 0 = true ∧
    (setitem emptyWD 0 w).length = 1 ∧
    keys (setitem emptyWD 0 w) = [] ∧
    iterKeys (setitem emptyWD 0 w) = [] :=
  ⟨rfl, rfl, rfl, rfl⟩

end WD

namespace WD

/-- Witness for C5 amended, instantiating the draw stream with the
constant zero stream. -/
theorem c5_sample_zero_weight_behavior_witness :
    sample emptyWD (fun _ => 0) 0 = SampleResult.ok none ∧
    sample (setitem (setitem emptyWD 5 0) 7 0) (fun _ => 0) 0 = SampleResult.zeroDiv ∧
    sample (setitem emptyWD 5 0) (fun _ => 0) 0 = SampleResult.ok (some 5) ∧
    emptyWD.length = 0 :=
  ⟨c5_sample_zero_weight_behavior.1 (fun _ => 0) 0,
   c5_sample_zero_weight_behavior.2.1 (fun _ => 0) 0,
   c5_sample_zero_weight_behavior.2.2.1 (fun _ => 0) 0,
   c5_sample_zero_weight_behavior.2.2.2⟩

/-- Witness for C9 at the weight 3. -/
theorem c9_falsy_key_stored_but_invisible_witness :
    contains (setitem emptyWD 0 3) 0 = true ∧
    (setitem emptyWD 0 3).length = 1 ∧
    keys (setitem emptyWD 0 3) = [] ∧
    iterKeys (setitem emptyWD 0 3) = [] :=
  c9_falsy_key_stored_but_invisible 3

end WD
